import Mathlib

/-!
# convert-joplin-zola: a shallow embedding of `main.go`

The program walks a tree of Joplin notes, splits every note into a YAML header and a
body, renames the header fields for Zola, rewrites the image links of the body and
remembers which images have to be copied.

Go strings are modelled by the sequence of runes that `for _, c := range s` yields
(`Str`).  Library code that the program calls but that is not part of the repository
(`unicode` tables above Latin-1, `yaml.v2`, `strings.ToLower`, `path.Dir`,
`os.WriteFile`) is taken as a parameter.
-/

set_option autoImplicit false

namespace JoplinZola

/-- A Go string, seen as the runes a `range` loop produces. -/
abbrev Str := List Char

/-! ## Header records (`main.go` lines 27-43) -/

/-- The record `JoplinHead`. -/
structure JoplinHead where
  Title : Str
  Updated : Str
  Created : Str
  Tags : List Str
  deriving DecidableEq, Repr

/-- The record `ZolaTag`. -/
structure ZolaTag where
  Tags : List Str
  deriving DecidableEq, Repr

/-- The record `ZolaHead`. -/
structure ZolaHead where
  Title : Str
  Date : Str
  Updated : Str
  Taxonomies : ZolaTag
  deriving DecidableEq, Repr

/-- The composite literal `zola := ZolaHead{...}` of `main.go` lines 135-140. -/
def toZola (joplin : JoplinHead) : ZolaHead :=
  { Title := joplin.Title
    Date := joplin.Created
    Updated := joplin.Updated
    Taxonomies := { Tags := joplin.Tags } }

/-! ## `slug` (`main.go` lines 45-55) -/

/-- The tables of package `unicode` for code points above Latin-1 (`isExcludingLatin`),
which are not part of the repository. -/
structure UnicodeTables where
  letter : Char → Bool
  number : Char → Bool

/-- The letters of the Latin-1 `properties` table of package `unicode`. -/
def latin1Letter (n : Nat) : Bool :=
  (0x41 ≤ n && n ≤ 0x5A) || (0x61 ≤ n && n ≤ 0x7A) || n == 0xAA || n == 0xB5 || n == 0xBA ||
    (0xC0 ≤ n && n ≤ 0xD6) || (0xD8 ≤ n && n ≤ 0xF6) || (0xF8 ≤ n && n ≤ 0xFF)

/-- The numbers of the Latin-1 `properties` table of package `unicode`. -/
def latin1Number (n : Nat) : Bool :=
  (0x30 ≤ n && n ≤ 0x39) || n == 0xB2 || n == 0xB3 || n == 0xB9 || (0xBC ≤ n && n ≤ 0xBE)

/-- The function `unicode.IsLetter`: the Latin-1 table up to U+00FF, the range tables above. -/
def isLetter (U : UnicodeTables) (c : Char) : Bool :=
  if c.toNat ≤ 0xFF then latin1Letter c.toNat else U.letter c

/-- The function `unicode.IsNumber`: the Latin-1 table up to U+00FF, the range tables above. -/
def isNumber (U : UnicodeTables) (c : Char) : Bool :=
  if c.toNat ≤ 0xFF then latin1Number c.toNat else U.number c

/-- The test `unicode.IsLetter(c) || unicode.IsNumber(c) || c == '.'` of `slug`. -/
def keeps (U : UnicodeTables) (c : Char) : Bool :=
  isLetter U c || isNumber U c || c == '.'

/-- One iteration of the loop of `slug`.  `none` is the run-time panic of
`out[len(out)-1]` when `out` is empty (index -1 out of range). -/
def slugStep (U : UnicodeTables) (out : Option Str) (c : Char) : Option Str :=
  match out with
  | none => none
  | some out =>
    if keeps U c then some (out ++ [c])
    else
      match out.getLast? with
      | none => none
      | some last => if last != '-' then some (out ++ ['-']) else some out

/-- The function `slug`: `some r` when it returns `r`, `none` when it panics. -/
def slug (U : UnicodeTables) (input : Str) : Option Str :=
  input.foldl (slugStep U) (some [])

/-- Tables that hold no letter and no number above Latin-1; used to run examples on
Latin-1 text, where the tables are never consulted. -/
def noTables : UnicodeTables := { letter := fun _ => false, number := fun _ => false }

/-! ## The resource pattern and the link rewrite (`main.go` lines 24, 118-121) -/

/-- The character class `[a-z0-9]`. -/
def isLowerAlnum (c : Char) : Bool :=
  (0x61 ≤ c.toNat && c.toNat ≤ 0x7A) || (0x30 ≤ c.toNat && c.toNat ≤ 0x39)

/-- The tail `.png` of the pattern at the start of `s`: the dot is not escaped, so it
stands for any one character other than a newline; then the letters `png`. -/
def matchDotPng : Str → Bool
  | [] => false
  | c :: rest => c != '\n' && ['p', 'n', 'g'].isPrefixOf rest

/-- The match of `[a-z0-9]+.png` that starts at the first character of `s`, if any.  The
repetition is greedy: a longer run of `[a-z0-9]` is tried before a shorter one. -/
def matchAt : Str → Option Str
  | [] => none
  | c :: rest =>
    if isLowerAlnum c then
      match matchAt rest with
      | some m => some (c :: m)
      | none => if matchDotPng rest then some (c :: rest.take 4) else none
    else none

/-- The call `ResourceRe.Find`: the leftmost match of `[a-z0-9]+.png`, `none` for `nil`. -/
def ResourceRe.Find : Str → Option Str
  | [] => none
  | c :: rest =>
    match matchAt (c :: rest) with
    | some m => some m
    | none => ResourceRe.Find rest

/-- The scan of `strings.ReplaceAll` for a non-empty `old`; `skip` counts the characters
of an occurrence just replaced that are still to be passed over. -/
def replaceFrom (old new : Str) : Nat → Str → Str
  | _, [] => []
  | skip + 1, _ :: rest => replaceFrom old new skip rest
  | 0, c :: rest =>
    if old.isPrefixOf (c :: rest) then new ++ replaceFrom old new (old.length - 1) rest
    else c :: replaceFrom old new 0 rest

/-- The function `strings.ReplaceAll` for a non-empty `old`: the non-overlapping
occurrences of `old`, from the left, are replaced by `new`. -/
def ReplaceAll (s old new : Str) : Str := replaceFrom old new 0 s

/-- The literal `../../_resources/`. -/
def resourcesDir : Str := "../../_resources/".toList

/-- The literal `/images/`. -/
def imagesDir : Str := "/images/".toList

/-- The body branch of the loop (`main.go` lines 118-121): the resource set and the line
after the `if resource := ResourceRe.Find(...)` statement. -/
def bodyLine (resourcesToCopy : List Str) (line : Str) : List Str × Str :=
  match ResourceRe.Find line with
  | some resource => (resourcesToCopy.insert resource, ReplaceAll line resourcesDir imagesDir)
  | none => (resourcesToCopy, line)

/-! ## The line loop (`main.go` lines 107-124) -/

/-- The variables of the loop: `header`, `body`, `readingHeader` and the map
`resourcesToCopy` (its key set). -/
structure ScanState where
  header : Str
  body : Str
  readingHeader : Bool
  resourcesToCopy : List Str
  deriving DecidableEq, Repr

/-- The delimiter line `---`. -/
def delim : Str := ['-', '-', '-']

/-- One iteration of `for scanner.Scan()`. -/
def scanLine (s : ScanState) (line : Str) : ScanState :=
  if !s.readingHeader && line == delim then { s with readingHeader := true }
  else if s.readingHeader && line == delim then { s with readingHeader := false }
  else if s.readingHeader then { s with header := s.header ++ line ++ ['\n'] }
  else
    let r := bodyLine s.resourcesToCopy line
    { s with resourcesToCopy := r.1, body := s.body ++ r.2 ++ ['\n'] }

/-- The state before the first line of a file. -/
def scanInit (resourcesToCopy : List Str) : ScanState :=
  { header := [], body := [], readingHeader := false, resourcesToCopy := resourcesToCopy }

/-- The whole loop over the lines of one file. -/
def scanLines (resourcesToCopy : List Str) (lines : List Str) : ScanState :=
  lines.foldl scanLine (scanInit resourcesToCopy)

/-! ## The filters of the walk (`main.go` lines 23, 85-97) -/

/-- The variable `SkipDirs`. -/
def SkipDirs : List Str := ["books".toList, "about".toList]

/-- The function `strings.HasPrefix`. -/
def HasPrefix (s p : Str) : Bool := p.isPrefixOf s

/-- The three early returns of the walk callback for the entry `filepath` with name
`name`: `true` when the callback goes on to open and transcode the file. -/
def transcodes (filepath : Str) (isDir : Bool) (name : Str) : Bool :=
  if SkipDirs.any (fun d => HasPrefix filepath d) then false
  else if isDir then false
  else if HasPrefix name ['_'] then false
  else true

/-! ## One file (`main.go` lines 99-154) -/

/-- The library functions the callback calls; they are not part of the repository. -/
structure Env where
  tables : UnicodeTables
  Unmarshal : Str → Except Str JoplinHead
  Marshal : ZolaHead → Except Str Str
  ToLower : Str → Str
  Dir : Str → Str
  WriteFile : Str → Str → Option Str

/-- The error returns of the callback, by stage. -/
inductive Failure where
  | scanner (err : Str)
  | unmarshal (err : Str)
  | marshal (err : Str)
  | write (err : Str)
  deriving DecidableEq, Repr

/-- What processing one file ends in. -/
inductive Outcome where
  | failed (f : Failure)
  | panicked
  | wrote (newFilePath newFileContent : Str) (resourcesToCopy : List Str)
  deriving DecidableEq, Repr

/-- The variable `ZolaContentPath`. -/
def ZolaContentPath : Str :=
  "/root/shared/ixdev/projects/src/github.com/ms-choudhary/ms-choudhary.github.io/content".toList

/-- The callback from `yaml.Unmarshal` on (`main.go` lines 130-154), run on the
variables the loop leaves. -/
def finishFile (E : Env) (filepath name : Str) (s : ScanState) : Outcome :=
  match E.Unmarshal s.header with
  | .error err => .failed (.unmarshal err)
  | .ok joplin =>
    match E.Marshal (toZola joplin) with
    | .error err => .failed (.marshal err)
    | .ok newheader =>
      match slug E.tables (E.ToLower name) with
      | none => .panicked
      | some slugged =>
        let newFilePath := ZolaContentPath ++ ['/'] ++ E.Dir filepath ++ ['/'] ++ slugged
        let newFileContent := delim ++ ['\n'] ++ newheader ++ delim ++ ['\n'] ++ s.body
        match E.WriteFile newFilePath newFileContent with
        | some err => .failed (.write err)
        | none => .wrote newFilePath newFileContent s.resourcesToCopy

/-- The callback after the filters (`main.go` lines 99-154), for a file whose scanner
delivers `lines` and then reports `scanErr`. -/
def processFile (E : Env) (resourcesToCopy : List Str) (filepath name : Str)
    (lines : List Str) (scanErr : Option Str) : Outcome :=
  let s := scanLines resourcesToCopy lines
  match scanErr with
  | some err => .failed (.scanner err)
  | none => finishFile E filepath name s

/-! ## Auxiliary definitions used to state the properties -/

/-- The text of `lines`, each followed by a newline. -/
def joinLines : List Str → Str
  | [] => []
  | l :: ls => l ++ '\n' :: joinLines ls

/-- The rest of the loop of `slug` once the last character of `out` is known: the
characters still to be appended, or `none` for the panic. -/
def slugFrom (U : UnicodeTables) : Option Char → Str → Option Str
  | _, [] => some []
  | last, c :: cs =>
    if keeps U c then (slugFrom U (some c) cs).map (c :: ·)
    else
      match last with
      | none => none
      | some l =>
        if l != '-' then (slugFrom U (some '-') cs).map ('-' :: ·)
        else slugFrom U (some '-') cs

/-- What `slug` may append after a buffer that ends in `last`. -/
def SlugTail (U : UnicodeTables) : Option Char → Str → Prop
  | _, [] => True
  | last, c :: cs =>
    if keeps U c then SlugTail U (some c) cs
    else c = '-' ∧ (∃ l, last = some l ∧ l ≠ '-') ∧ SlugTail U (some '-') cs

/-- The claim's reading of `slug`: every maximal run of characters that are not kept
becomes one `-`; `inRun` tells that the previous character was not kept. -/
def collapseRuns (U : UnicodeTables) : Bool → Str → Str
  | _, [] => []
  | inRun, c :: cs =>
    if keeps U c then c :: collapseRuns U false cs
    else if inRun then collapseRuns U true cs
    else '-' :: collapseRuns U true cs

/-- The body line as the loop appends it: the second component of `bodyLine`. -/
def rewritten (line : Str) : Str := (bodyLine [] line).2

/-- The resource set after the body lines `ls`. -/
def recorded (resourcesToCopy : List Str) (ls : List Str) : List Str :=
  ls.foldl (fun r l => (bodyLine r l).1) resourcesToCopy

/-- The claim's reading of the pattern, with the dot taken literally: some character of
`[a-z0-9]` is directly followed by `.png`. -/
def containsLiteralPattern : Str → Bool
  | [] => false
  | c :: rest => (isLowerAlnum c && ".png".toList.isPrefixOf rest) || containsLiteralPattern rest

/-- The claim's reading of the skip rule: the file lies under a directory of `SkipDirs`,
that is, its path starts with the directory name followed by `/`. -/
def underSkipDir (filepath : Str) : Bool :=
  SkipDirs.any (fun d => HasPrefix filepath (d ++ ['/']))

/-- The zero value of `JoplinHead`, which `yaml.Unmarshal` leaves untouched on an empty
document. -/
def emptyHead : JoplinHead := { Title := [], Updated := [], Created := [], Tags := [] }

/-- A string as `yaml.v2` writes it when it is empty (`""`) or needs no quoting (plain). -/
def yamlScalar (s : Str) : Str := if s = [] then ['"', '"'] else s

/-- The value of the key `tags` as `yaml.v2` writes it: ` []` for no tags, otherwise one
`- tag` line per tag at the indentation of the key. -/
def yamlTags : List Str → Str
  | [] => " []\n".toList
  | t :: ts => '\n' :: joinLines ((t :: ts).map fun tag => "  - ".toList ++ yamlScalar tag)

/-- The text `yaml.Marshal` writes for a `ZolaHead` whose strings are empty or need no
quoting. -/
def yamlZolaHead (zola : ZolaHead) : Str :=
  "title: ".toList ++ yamlScalar zola.Title ++ "\ndate: ".toList ++ yamlScalar zola.Date ++
    "\nupdated: ".toList ++ yamlScalar zola.Updated ++ "\ntaxonomies:\n  tags:".toList ++
    yamlTags zola.Taxonomies.Tags

/-- The function `path.Dir` on the paths `fs.WalkDir` hands to the callback (relative,
clean, `/`-separated): all but the last element, `.` for a path of one element. -/
def walkedDir (filepath : Str) : Str :=
  match (filepath.reverse.dropWhile (· != '/')).drop 1 with
  | [] => ['.']
  | d :: ds => (d :: ds).reverse

/-- An environment for evaluating the callback on the sample files of this development;
on them each component returns what the library returns.  `Unmarshal` accepts the empty
document (the record keeps its zero value) and the document `title: Hi`, and reports the
error of `yaml.v2` on the plain scalar `title Hi`; it is not meant for other texts.
`Marshal` is `yamlZolaHead`; `ToLower` lowercases `A`-`Z`, which is `strings.ToLower` on
ASCII names; `Dir` is `walkedDir`; the write succeeds; the tables above Latin-1 are never
consulted on ASCII names. -/
def demoEnv : Env where
  tables := noTables
  Unmarshal := fun text =>
    if text = [] then .ok emptyHead
    else if text = "title: Hi\n".toList then .ok { emptyHead with Title := "Hi".toList }
    else .error "yaml: unmarshal errors".toList
  Marshal := fun zola => .ok (yamlZolaHead zola)
  ToLower := fun name => name.map Char.toLower
  Dir := walkedDir
  WriteFile := fun _ _ => none

/-- The outcome `outcome` is the one of `main.go` lines 130-154 on the header text
`header`, the body text `body` and the resource set `resources`: the error of
`yaml.Unmarshal` if it rejects `header`; otherwise the error of `yaml.Marshal` on the
Zola header; otherwise the panic of `slug`; otherwise the error of `os.WriteFile`;
otherwise the file `---`, serialised header, `---`, `body` written under the slugged
name. -/
def ProcessesAs (E : Env) (filepath name : Str) (outcome : Outcome) (header body : Str)
    (resources : List Str) : Prop :=
  (∀ err, E.Unmarshal header = .error err → outcome = .failed (.unmarshal err)) ∧
  (∀ joplin, E.Unmarshal header = .ok joplin →
    (∀ err, E.Marshal (toZola joplin) = .error err → outcome = .failed (.marshal err)) ∧
    (∀ newheader, E.Marshal (toZola joplin) = .ok newheader →
      (slug E.tables (E.ToLower name) = none → outcome = .panicked) ∧
      (∀ slugged, slug E.tables (E.ToLower name) = some slugged →
        (∀ err,
          E.WriteFile (ZolaContentPath ++ ['/'] ++ E.Dir filepath ++ ['/'] ++ slugged)
              (delim ++ ['\n'] ++ newheader ++ delim ++ ['\n'] ++ body) = some err →
            outcome = .failed (.write err)) ∧
        (E.WriteFile (ZolaContentPath ++ ['/'] ++ E.Dir filepath ++ ['/'] ++ slugged)
              (delim ++ ['\n'] ++ newheader ++ delim ++ ['\n'] ++ body) = none →
            outcome = .wrote (ZolaContentPath ++ ['/'] ++ E.Dir filepath ++ ['/'] ++ slugged)
              (delim ++ ['\n'] ++ newheader ++ delim ++ ['\n'] ++ body) resources))))

/-- A document with a line before the opening delimiter. -/
def docTextBeforeHeader : List Str :=
  ["intro", "---", "title: a", "---", "x"].map String.toList

/-- A document with three delimiter lines. -/
def docThreeDelims : List Str :=
  ["---", "title: a", "---", "x", "---", "y"].map String.toList

/-! ## Properties of `slug` -/

theorem keeps_dash (U : UnicodeTables) : keeps U '-' = false := rfl

theorem foldl_slugStep_none (U : UnicodeTables) (s : Str) :
    s.foldl (slugStep U) none = none := by
  induction s with
  | nil => rfl
  | cons c cs ih => simpa [List.foldl, slugStep] using ih

theorem foldl_slugStep_eq (U : UnicodeTables) (s out : Str) :
    s.foldl (slugStep U) (some out) = (slugFrom U out.getLast? s).map (out ++ ·) := by
  induction s generalizing out with
  | nil => simp [slugFrom]
  | cons c cs ih =>
    simp only [List.foldl, slugStep, slugFrom]
    cases hk : keeps U c with
    | true =>
      simp only [if_true]
      rw [ih]
      simp [Option.map_map, Function.comp_def]
    | false =>
      cases hl : out.getLast? with
      | none => simp [foldl_slugStep_none]
      | some l =>
        by_cases hd : l = '-'
        · subst hd
          simp [ih, hl]
        · have hb : (l != '-') = true := by simpa using hd
          simp only [hb, if_true, Bool.false_eq_true, if_false]
          rw [ih]
          simp [Option.map_map, Function.comp_def]

theorem slug_eq_slugFrom (U : UnicodeTables) (s : Str) : slug U s = slugFrom U none s := by
  simp [slug, foldl_slugStep_eq]

theorem slugTail_of_slugFrom (U : UnicodeTables) (s : Str) :
    ∀ (last : Option Char) (r : Str), slugFrom U last s = some r → SlugTail U last r := by
  induction s with
  | nil => intro last r h; simp [slugFrom] at h; subst h; trivial
  | cons c cs ih =>
    intro last r h
    simp only [slugFrom] at h
    cases hk : keeps U c with
    | true =>
      simp only [hk, if_true, Option.map_eq_some'] at h
      obtain ⟨r', hr', rfl⟩ := h
      simp only [SlugTail, hk, if_true]
      exact ih _ _ hr'
    | false =>
      simp only [hk, Bool.false_eq_true, if_false] at h
      cases last with
      | none => simp at h
      | some l =>
        by_cases hd : l = '-'
        · subst hd
          simp at h
          exact ih _ _ h
        · have hb : (l != '-') = true := by simpa using hd
          simp only [hb, if_true, Option.map_eq_some'] at h
          obtain ⟨r', hr', rfl⟩ := h
          simp only [SlugTail, keeps_dash, Bool.false_eq_true, if_false]
          exact ⟨trivial, ⟨l, rfl, hd⟩, ih _ _ hr'⟩

theorem slugFrom_of_slugTail (U : UnicodeTables) (r : Str) :
    ∀ last : Option Char, SlugTail U last r → slugFrom U last r = some r := by
  induction r with
  | nil => intro last _; rfl
  | cons c cs ih =>
    intro last h
    simp only [SlugTail] at h
    simp only [slugFrom]
    cases hk : keeps U c with
    | true =>
      simp only [hk, if_true] at h ⊢
      simp [ih _ h]
    | false =>
      simp only [hk, Bool.false_eq_true, if_false] at h ⊢
      obtain ⟨rfl, ⟨l, rfl, hl⟩, ht⟩ := h
      simp [hl, ih _ ht]

theorem slugTail_no_double_dash (U : UnicodeTables) (a b : Str) :
    ∀ last : Option Char, ¬ SlugTail U last (a ++ '-' :: '-' :: b) := by
  induction a with
  | nil =>
    intro last h
    simp only [List.nil_append, SlugTail, keeps_dash, Bool.false_eq_true, if_false] at h
    obtain ⟨_, _, _, ⟨l, hl, hne⟩, _⟩ := h
    simp at hl
    exact hne hl.symm
  | cons c cs ih =>
    intro last h
    simp only [List.cons_append, SlugTail] at h
    cases hk : keeps U c with
    | true =>
      simp only [hk, if_true] at h
      exact ih _ h
    | false =>
      simp only [hk, Bool.false_eq_true, if_false] at h
      exact ih _ h.2.2

/-- C6: slugging is idempotent: whenever `slug` returns `r` on some input, `slug` returns
`r` on `r`. -/
theorem slug_idempotent (U : UnicodeTables) (s r : Str) (h : slug U s = some r) :
    slug U r = some r := by
  rw [slug_eq_slugFrom] at h ⊢
  exact slugFrom_of_slugTail U r none (slugTail_of_slugFrom U s none r h)

theorem slug_idempotent_witness :
    slug noTables "My  Note_.md".toList = some "My-Note-.md".toList ∧
      slug noTables "My-Note-.md".toList = some "My-Note-.md".toList :=
  ⟨by decide, slug_idempotent noTables "My  Note_.md".toList _ (by decide)⟩

/-- C7: whenever `slug` returns a result, the result holds no two consecutive `-`. -/
theorem slug_no_double_dash (U : UnicodeTables) (s r : Str) (h : slug U s = some r) :
    ¬ ['-', '-'] <:+: r := by
  rw [slug_eq_slugFrom] at h
  rintro ⟨a, b, hab⟩
  have ht := slugTail_of_slugFrom U s none r h
  rw [← hab] at ht
  simp only [List.append_assoc, List.cons_append, List.nil_append] at ht
  exact slugTail_no_double_dash U a b none ht

theorem slug_no_double_dash_witness :
    slug noTables "a--b - c.md".toList = some "a-b-c.md".toList ∧
      ¬ ['-', '-'] <:+: "a-b-c.md".toList :=
  ⟨by decide, slug_no_double_dash noTables "a--b - c.md".toList _ (by decide)⟩

theorem slugFrom_eq_collapseRuns (U : UnicodeTables) (s : Str) :
    ∀ l : Char, slugFrom U (some l) s = some (collapseRuns U (l == '-') s) := by
  induction s with
  | nil => intro l; rfl
  | cons c cs ih =>
    intro l
    rw [slugFrom, collapseRuns]
    cases hk : keeps U c with
    | true =>
      have hc : (c == '-') = false := by
        cases h : c == '-' with
        | false => rfl
        | true =>
          rw [beq_iff_eq] at h
          rw [h, keeps_dash] at hk
          exact absurd hk (by decide)
      simp [ih, hc]
    | false =>
      by_cases hd : l = '-'
      · subst hd
        simp [ih]
      · have hb : (l == '-') = false := by simpa using hd
        simp [ih, hb, hd]

/-- When the first character of the name is kept, or the name is empty, `slug` returns
the name with every maximal run of other characters replaced by one `-`; when the first
character is not kept, `slug` panics. -/
theorem slug_eq_collapseRuns (U : UnicodeTables) (s : Str) :
    slug U s =
      match s with
      | [] => some []
      | c :: _ => if keeps U c then some (collapseRuns U false s) else none := by
  rw [slug_eq_slugFrom]
  cases s with
  | nil => rfl
  | cons c cs =>
    simp only [slugFrom, collapseRuns]
    cases hk : keeps U c with
    | true =>
      have hc : (c == '-') = false := by
        cases h : c == '-' with
        | false => rfl
        | true =>
          rw [beq_iff_eq] at h
          rw [h, keeps_dash] at hk
          exact absurd hk (by decide)
      simp [slugFrom_eq_collapseRuns, hc]
    | false => simp

/-! ## Properties of the line loop -/

theorem bodyLine_snd (res : List Str) (line : Str) : (bodyLine res line).2 = rewritten line := by
  unfold rewritten bodyLine
  cases ResourceRe.Find line <;> rfl

theorem joinLines_append (a b : List Str) : joinLines (a ++ b) = joinLines a ++ joinLines b := by
  induction a with
  | nil => rfl
  | cons l ls ih => simp [joinLines, ih]

theorem scanLine_delim_open (s : ScanState) (h : s.readingHeader = false) :
    scanLine s delim = { s with readingHeader := true } := by
  simp [scanLine, h]

theorem scanLine_delim_close (s : ScanState) (h : s.readingHeader = true) :
    scanLine s delim = { s with readingHeader := false } := by
  simp [scanLine, h]

theorem scanLine_header (s : ScanState) (line : Str) (h : s.readingHeader = true)
    (hl : line ≠ delim) : scanLine s line = { s with header := s.header ++ line ++ ['\n'] } := by
  simp [scanLine, h, hl]

theorem scanLine_body (s : ScanState) (line : Str) (h : s.readingHeader = false)
    (hl : line ≠ delim) :
    scanLine s line = { s with resourcesToCopy := (bodyLine s.resourcesToCopy line).1,
                               body := s.body ++ rewritten line ++ ['\n'] } := by
  simp [scanLine, h, hl, bodyLine_snd]

theorem foldl_scanLine_header (ls : List Str) (hls : delim ∉ ls) :
    ∀ s : ScanState, s.readingHeader = true →
      ls.foldl scanLine s = { s with header := s.header ++ joinLines ls } := by
  induction ls with
  | nil => intro s _; simp [joinLines]
  | cons l ls ih =>
    intro s hs
    have hl : l ≠ delim := fun e => hls (e ▸ List.mem_cons_self _ _)
    have hls' : delim ∉ ls := fun e => hls (List.mem_cons_of_mem _ e)
    rw [List.foldl_cons, scanLine_header s l hs hl, ih hls']
    · simp [joinLines]
    · exact hs

theorem foldl_scanLine_body (ls : List Str) (hls : delim ∉ ls) :
    ∀ s : ScanState, s.readingHeader = false →
      ls.foldl scanLine s =
        { s with resourcesToCopy := recorded s.resourcesToCopy ls,
                 body := s.body ++ joinLines (ls.map rewritten) } := by
  induction ls with
  | nil => intro s _; simp [joinLines, recorded]
  | cons l ls ih =>
    intro s hs
    have hl : l ≠ delim := fun e => hls (e ▸ List.mem_cons_self _ _)
    have hls' : delim ∉ ls := fun e => hls (List.mem_cons_of_mem _ e)
    rw [List.foldl_cons, scanLine_body s l hs hl, ih hls']
    · simp [joinLines, recorded]
    · exact hs

theorem scanLines_closed_header (res : List Str) (pre hdr rest : List Str)
    (hpre : delim ∉ pre) (hhdr : delim ∉ hdr) :
    scanLines res (pre ++ delim :: hdr ++ delim :: rest) =
      rest.foldl scanLine
        { header := joinLines hdr, body := joinLines (pre.map rewritten),
          readingHeader := false, resourcesToCopy := recorded res pre } := by
  unfold scanLines
  rw [List.append_assoc, List.foldl_append, foldl_scanLine_body pre hpre _ rfl,
    List.cons_append, List.foldl_cons, scanLine_delim_open _ rfl, List.foldl_append,
    foldl_scanLine_header hdr hhdr _ rfl, List.foldl_cons, scanLine_delim_close _ rfl]
  simp [scanInit]

/-- C2, amended: in a document with exactly two `---` lines the header text is the lines
strictly between them, each followed by a newline, and the body is the lines before the
first delimiter followed by the lines after the second, in order, each as the resource
rewrite leaves it and followed by a newline.  In a document with a third `---` line and no
fourth, the third line is not body text: it opens header text again, so the lines after it
are appended to the header and the body is the same as without them. -/
theorem scanLines_two_delims (res : List Str) (pre hdr post more : List Str)
    (hpre : delim ∉ pre) (hhdr : delim ∉ hdr) (hpost : delim ∉ post) (hmore : delim ∉ more) :
    (scanLines res (pre ++ delim :: hdr ++ delim :: post)).header = joinLines hdr ∧
      (scanLines res (pre ++ delim :: hdr ++ delim :: post)).body
        = joinLines ((pre ++ post).map rewritten) ∧
      (scanLines res (pre ++ delim :: hdr ++ delim :: post ++ delim :: more)).header
        = joinLines (hdr ++ more) ∧
      (scanLines res (pre ++ delim :: hdr ++ delim :: post ++ delim :: more)).body
        = joinLines ((pre ++ post).map rewritten) := by
  have h := scanLines_closed_header res pre hdr post hpre hhdr
  rw [foldl_scanLine_body post hpost _ rfl] at h
  have h3 := scanLines_closed_header res pre hdr (post ++ delim :: more) hpre hhdr
  rw [List.foldl_append, foldl_scanLine_body post hpost _ rfl, List.foldl_cons,
    scanLine_delim_open _ rfl, foldl_scanLine_header more hmore _ rfl] at h3
  simp only [List.append_assoc, List.cons_append] at h h3 ⊢
  refine ⟨?_, ?_, ?_, ?_⟩
  · rw [h]
  · rw [h]
    simp [joinLines_append]
  · rw [h3]
    simp [joinLines_append]
  · rw [h3]
    simp [joinLines_append]

/-! ## The header map -/

/-- C1: the Zola header built from a Joplin header has `title` equal to the source title,
`date` equal to the source `created`, `updated` equal to the source `updated` and
`taxonomies.tags` equal to the source tags, element for element; no value is altered. -/
theorem toZola_fields (joplin : JoplinHead) :
    (toZola joplin).Title = joplin.Title ∧ (toZola joplin).Date = joplin.Created ∧
      (toZola joplin).Updated = joplin.Updated ∧
      (toZola joplin).Taxonomies.Tags = joplin.Tags :=
  ⟨rfl, rfl, rfl, rfl⟩

/-! ## Header and body of a document -/

/-- C2, as stated, fails.  In a document with three `---` lines the third one is not body
text: it switches the loop back to header mode, so the line after it joins the header and
is missing from the body.  And a line before the opening `---` is a body line, so the
body is more than the lines after the closing `---`. -/
theorem scanLines_third_delim_not_body :
    2 ≤ docThreeDelims.count delim ∧
      (scanLines [] docThreeDelims).header = "title: a\ny\n".toList ∧
      (scanLines [] docThreeDelims).body = "x\n".toList ∧
      (scanLines [] docThreeDelims).header ≠ joinLines ["title: a".toList] ∧
      (scanLines [] docThreeDelims).body
        ≠ joinLines (["x".toList, delim, "y".toList].map rewritten) ∧
      (scanLines [] docTextBeforeHeader).body = "intro\nx\n".toList ∧
      (scanLines [] docTextBeforeHeader).body ≠ joinLines (["x".toList].map rewritten) := by
  decide

theorem scanLines_two_delims_witness :
    (delim ∉ ["intro".toList] ∧ delim ∉ ["title: a".toList] ∧
        delim ∉ ["x".toList, "y".toList] ∧ delim ∉ ["z".toList]) ∧
      (scanLines [] (["intro".toList] ++ delim :: ["title: a".toList]
          ++ delim :: ["x".toList, "y".toList])).header = joinLines ["title: a".toList] ∧
      (scanLines [] (["intro".toList] ++ delim :: ["title: a".toList]
          ++ delim :: ["x".toList, "y".toList])).body
        = joinLines ((["intro".toList] ++ ["x".toList, "y".toList]).map rewritten) ∧
      (scanLines [] (["intro".toList] ++ delim :: ["title: a".toList]
          ++ delim :: ["x".toList, "y".toList] ++ delim :: ["z".toList])).header
        = joinLines (["title: a".toList] ++ ["z".toList]) ∧
      (scanLines [] (["intro".toList] ++ delim :: ["title: a".toList]
          ++ delim :: ["x".toList, "y".toList] ++ delim :: ["z".toList])).body
        = joinLines ((["intro".toList] ++ ["x".toList, "y".toList]).map rewritten) :=
  ⟨by decide,
    scanLines_two_delims [] ["intro".toList] ["title: a".toList] ["x".toList, "y".toList]
      ["z".toList] (by decide) (by decide) (by decide) (by decide)⟩

/-! ## Documents without a complete header block -/

theorem scanLines_no_delim (res : List Str) (pre : List Str) (hpre : delim ∉ pre) :
    scanLines res pre =
      { header := [], body := joinLines (pre.map rewritten), readingHeader := false,
        resourcesToCopy := recorded res pre } := by
  unfold scanLines
  rw [foldl_scanLine_body pre hpre _ rfl]
  simp [scanInit]

theorem scanLines_open_only (res : List Str) (pre hdr : List Str) (hpre : delim ∉ pre)
    (hhdr : delim ∉ hdr) :
    scanLines res (pre ++ delim :: hdr) =
      { header := joinLines hdr, body := joinLines (pre.map rewritten), readingHeader := true,
        resourcesToCopy := recorded res pre } := by
  unfold scanLines
  rw [List.foldl_append, foldl_scanLine_body pre hpre _ rfl, List.foldl_cons,
    scanLine_delim_open _ rfl, foldl_scanLine_header hdr hhdr _ rfl]
  simp [scanInit]

theorem finishFile_unmarshal_failed_iff (E : Env) (filepath name : Str) (s : ScanState) :
    (∃ err, finishFile E filepath name s = .failed (.unmarshal err)) ↔
      ∃ err, E.Unmarshal s.header = .error err := by
  unfold finishFile
  cases hu : E.Unmarshal s.header with
  | error e => simp
  | ok joplin =>
    simp only [reduceCtorEq, exists_false, iff_false, not_exists]
    intro err
    repeat' split
    all_goals simp

theorem finishFile_processesAs (E : Env) (filepath name : Str) (s : ScanState) :
    ProcessesAs E filepath name (finishFile E filepath name s) s.header s.body
      s.resourcesToCopy := by
  unfold ProcessesAs finishFile
  refine ⟨fun err hu => by simp only [hu], fun joplin hu => ⟨fun err hm => by simp only [hu, hm],
    fun newheader hm => ⟨fun hs => by simp only [hu, hm, hs], fun slugged hs =>
      ⟨fun err hw => by simp only [hu, hm, hs, hw], fun hw => by simp only [hu, hm, hs, hw]⟩⟩⟩⟩

/-- C8, as stated, fails: a file with no `---` line at all and a file with an opening
`---` and no closing one are both processed without any error and written out; in the
first the lines of the file are the body under the serialised empty header. -/
theorem processFile_missing_delimiter_writes :
    delim ∉ ["title: Hi", "text"].map String.toList ∧
      processFile demoEnv [] "Note.md".toList "Note.md".toList
          (["title: Hi", "text"].map String.toList) none
        = .wrote (ZolaContentPath ++ "/./note.md".toList)
            ("---\ntitle: \"\"\ndate: \"\"\nupdated: \"\"\ntaxonomies:\n  tags: []\n---\ntitle: Hi\ntext\n".toList)
            [] ∧
      (["---", "title: Hi"].map String.toList).count delim = 1 ∧
      processFile demoEnv [] "Note.md".toList "Note.md".toList
          (["---", "title: Hi"].map String.toList) none
        = .wrote (ZolaContentPath ++ "/./note.md".toList)
            ("---\ntitle: Hi\ndate: \"\"\nupdated: \"\"\ntaxonomies:\n  tags: []\n---\n".toList)
            [] := by
  decide

/-- C8, amended: when the scanner reports no error, a document with no `---` line is
processed with the empty text as header and all its lines as body, and a document with an
opening `---` and no closing one is processed with the lines after the `---` as header
and the lines before it as body.  In both cases processing fails with a parse-stage error
exactly when the YAML parser rejects that header text; when the parser accepts it, the
Zola header is serialised and the file `---`, serialised header, `---`, body is written
under the slugged name, unless serialising, `slug` or the write itself fails. -/
theorem processFile_missing_delimiter (E : Env) (res : List Str) (filepath name : Str)
    (pre hdr : List Str) (hpre : delim ∉ pre) (hhdr : delim ∉ hdr) :
    (ProcessesAs E filepath name (processFile E res filepath name pre none)
        [] (joinLines (pre.map rewritten)) (recorded res pre) ∧
      ((∃ err, processFile E res filepath name pre none = .failed (.unmarshal err)) ↔
        ∃ err, E.Unmarshal [] = .error err)) ∧
    (ProcessesAs E filepath name (processFile E res filepath name (pre ++ delim :: hdr) none)
        (joinLines hdr) (joinLines (pre.map rewritten)) (recorded res pre) ∧
      ((∃ err, processFile E res filepath name (pre ++ delim :: hdr) none
          = .failed (.unmarshal err)) ↔
        ∃ err, E.Unmarshal (joinLines hdr) = .error err)) := by
  have h1 : processFile E res filepath name pre none =
      finishFile E filepath name
        { header := [], body := joinLines (pre.map rewritten), readingHeader := false,
          resourcesToCopy := recorded res pre } := by
    simp only [processFile, scanLines_no_delim res pre hpre]
  have h2 : processFile E res filepath name (pre ++ delim :: hdr) none =
      finishFile E filepath name
        { header := joinLines hdr, body := joinLines (pre.map rewritten),
          readingHeader := true, resourcesToCopy := recorded res pre } := by
    simp only [processFile, scanLines_open_only res pre hdr hpre hhdr]
  refine ⟨⟨?_, ?_⟩, ⟨?_, ?_⟩⟩
  · rw [h1]; exact finishFile_processesAs E filepath name _
  · rw [h1]; exact finishFile_unmarshal_failed_iff E filepath name _
  · rw [h2]; exact finishFile_processesAs E filepath name _
  · rw [h2]; exact finishFile_unmarshal_failed_iff E filepath name _

theorem processFile_missing_delimiter_witness :
    (delim ∉ ["text".toList] ∧ delim ∉ ["title: Hi".toList]) ∧
      processFile demoEnv [] "Note.md".toList "Note.md".toList ["text".toList] none
        = .wrote (ZolaContentPath ++ "/./note.md".toList)
            ("---\n".toList ++ yamlZolaHead (toZola emptyHead) ++ "---\ntext\n".toList) [] ∧
      processFile demoEnv [] "Note.md".toList "Note.md".toList
          (["text".toList] ++ delim :: ["title: Hi".toList]) none
        = .wrote (ZolaContentPath ++ "/./note.md".toList)
            ("---\n".toList ++ yamlZolaHead (toZola { emptyHead with Title := "Hi".toList })
              ++ "---\ntext\n".toList) [] :=
  have h := processFile_missing_delimiter demoEnv [] "Note.md".toList "Note.md".toList
    ["text".toList] ["title: Hi".toList] (by decide) (by decide)
  ⟨by decide,
    ((((h.1.1.2 emptyHead rfl).2 _ rfl).2 "note.md".toList (by decide)).2 rfl),
    ((((h.2.1.2 { emptyHead with Title := "Hi".toList } rfl).2 _ rfl).2 "note.md".toList
      (by decide)).2 rfl)⟩

/-! ## Resource references in a body line -/

theorem isLowerAlnum_ne_dot (c : Char) (h : isLowerAlnum c = true) : c ≠ '.' := by
  rintro rfl
  exact absurd h (by decide)

theorem matchAt_name (name : Str) (hne : name ≠ []) (hall : ∀ c ∈ name, isLowerAlnum c = true)
    (tail : Str) :
    matchAt (name ++ '.' :: 'p' :: 'n' :: 'g' :: tail) = some (name ++ ['.', 'p', 'n', 'g']) := by
  induction name with
  | nil => exact absurd rfl hne
  | cons c cs ih =>
    have hc : isLowerAlnum c = true := hall c (List.mem_cons_self _ _)
    cases cs with
    | nil =>
      have h0 : matchAt ('.' :: 'p' :: 'n' :: 'g' :: tail) = none := by
        simp [matchAt, isLowerAlnum]
      rw [List.singleton_append, matchAt, if_pos hc, h0]
      simp [matchDotPng]
    | cons d ds =>
      have := ih (by simp) (fun x hx => hall x (List.mem_cons_of_mem _ hx))
      simp only [List.cons_append] at this ⊢
      rw [matchAt, if_pos hc, this]

theorem png_not_before_dot (name tail : Str)
    (hpng : ['p', 'n', 'g'].isPrefixOf name = false) :
    ['p', 'n', 'g'].isPrefixOf (name ++ '.' :: tail) = false := by
  rcases name with _ | ⟨a, _ | ⟨b, _ | ⟨c, rest⟩⟩⟩
  · simp [List.isPrefixOf]
  · simp [List.isPrefixOf]
  · simp [List.isPrefixOf]
  · simpa [List.isPrefixOf] using hpng

theorem find_cons_of_not_alnum (c : Char) (rest : Str) (h : isLowerAlnum c = false) :
    ResourceRe.Find (c :: rest) = ResourceRe.Find rest := by
  simp [ResourceRe.Find, matchAt, h]

theorem matchAt_cons_of_not_alnum (c : Char) (rest : Str) (h : isLowerAlnum c = false) :
    matchAt (c :: rest) = none := by
  simp [matchAt, h]

theorem matchAt_cons_none (c : Char) (rest : Str) (h : matchAt rest = none)
    (hd : matchDotPng rest = false) : matchAt (c :: rest) = none := by
  rw [matchAt]
  split
  · simp [h, hd]
  · rfl

theorem find_cons_none (c : Char) (rest : Str) (h : matchAt (c :: rest) = none) :
    ResourceRe.Find (c :: rest) = ResourceRe.Find rest := by
  rw [ResourceRe.Find, h]

theorem find_reference (name : Str) (hne : name ≠ [])
    (hall : ∀ c ∈ name, isLowerAlnum c = true) (hpng : ['p', 'n', 'g'].isPrefixOf name = false) :
    ResourceRe.Find ("![](../../_resources/".toList ++ name ++ ".png)".toList)
      = some (name ++ ".png".toList) := by
  have hB := png_not_before_dot name ['p', 'n', 'g', ')'] hpng
  have hA := matchAt_name name hne hall [')']
  obtain ⟨c, cs, rfl⟩ := List.exists_cons_of_ne_nil hne
  simp only [String.toList, List.cons_append, List.nil_append] at hA hB ⊢
  have m0 : matchAt ('/' :: c :: (cs ++ ['.', 'p', 'n', 'g', ')'])) = none :=
    matchAt_cons_of_not_alnum _ _ (by decide)
  have d0 : matchDotPng ('/' :: c :: (cs ++ ['.', 'p', 'n', 'g', ')'])) = false := by
    simpa [matchDotPng] using hB
  have m1 := matchAt_cons_none 's' _ m0 d0
  have m2 := matchAt_cons_none 'e' _ m1 (by simp [matchDotPng, List.isPrefixOf])
  have m3 := matchAt_cons_none 'c' _ m2 (by simp [matchDotPng, List.isPrefixOf])
  have m4 := matchAt_cons_none 'r' _ m3 (by simp [matchDotPng, List.isPrefixOf])
  have m5 := matchAt_cons_none 'u' _ m4 (by simp [matchDotPng, List.isPrefixOf])
  have m6 := matchAt_cons_none 'o' _ m5 (by simp [matchDotPng, List.isPrefixOf])
  have m7 := matchAt_cons_none 's' _ m6 (by simp [matchDotPng, List.isPrefixOf])
  have m8 := matchAt_cons_none 'e' _ m7 (by simp [matchDotPng, List.isPrefixOf])
  have m9 := matchAt_cons_none 'r' _ m8 (by simp [matchDotPng, List.isPrefixOf])
  rw [find_cons_of_not_alnum _ _ (by decide), find_cons_of_not_alnum _ _ (by decide),
    find_cons_of_not_alnum _ _ (by decide), find_cons_of_not_alnum _ _ (by decide),
    find_cons_of_not_alnum _ _ (by decide), find_cons_of_not_alnum _ _ (by decide),
    find_cons_of_not_alnum _ _ (by decide), find_cons_of_not_alnum _ _ (by decide),
    find_cons_of_not_alnum _ _ (by decide), find_cons_of_not_alnum _ _ (by decide),
    find_cons_of_not_alnum _ _ (by decide),
    find_cons_none _ _ m9, find_cons_none _ _ m8, find_cons_none _ _ m7, find_cons_none _ _ m6,
    find_cons_none _ _ m5, find_cons_none _ _ m4, find_cons_none _ _ m3, find_cons_none _ _ m2,
    find_cons_none _ _ m1, find_cons_of_not_alnum _ _ (by decide), ResourceRe.Find, hA]

theorem replaceFrom_name (name : Str) (hall : ∀ c ∈ name, isLowerAlnum c = true) :
    replaceFrom resourcesDir imagesDir 0 (name ++ ['.', 'p', 'n', 'g', ')'])
      = name ++ ['.', 'p', 'n', 'g', ')'] := by
  induction name with
  | nil => decide
  | cons c cs ih =>
    have hc : c ≠ '.' := isLowerAlnum_ne_dot c (hall c (List.mem_cons_self _ _))
    have hp : resourcesDir.isPrefixOf (c :: (cs ++ ['.', 'p', 'n', 'g', ')'])) = false := by
      simp [resourcesDir, List.isPrefixOf, Ne.symm hc]
    rw [List.cons_append, replaceFrom, if_neg (by simp [hp]),
      ih (fun x hx => hall x (List.mem_cons_of_mem _ hx))]

theorem replaceAll_reference (name : Str) (hall : ∀ c ∈ name, isLowerAlnum c = true) :
    ReplaceAll ("![](../../_resources/".toList ++ name ++ ".png)".toList) resourcesDir imagesDir
      = "![](/images/".toList ++ name ++ ".png)".toList := by
  have h := replaceFrom_name name hall
  simp only [ReplaceAll, String.toList, List.cons_append, List.nil_append]
  simp [replaceFrom, resourcesDir, imagesDir, List.isPrefixOf] at h ⊢
  exact h

/-- For a name of lowercase letters and digits that does not begin with `png`, the body
line `![](../../_resources/<name>.png)` records `<name>.png` and is rewritten to
`![](/images/<name>.png)`. -/
theorem bodyLine_reference (res : List Str) (name : Str) (hne : name ≠ [])
    (hall : ∀ c ∈ name, isLowerAlnum c = true) (hpng : ['p', 'n', 'g'].isPrefixOf name = false) :
    bodyLine res ("![](../../_resources/".toList ++ name ++ ".png)".toList)
      = (res.insert (name ++ ".png".toList), "![](/images/".toList ++ name ++ ".png)".toList) := by
  rw [bodyLine, find_reference name hne hall hpng, replaceAll_reference name hall]

/-- C3: on the body line `![](../../_resources/png.png)` the pattern matches
`resources/png` first, so that text is recorded, not `png.png`; the line is rewritten to
`![](/images/png.png)`.  On the names `abc123` and `x1` the code records `abc123.png` and
`x1.png` and rewrites the link, as the claim says. -/
theorem bodyLine_name_png :
    bodyLine [] "![](../../_resources/png.png)".toList
        = (["resources/png".toList], "![](/images/png.png)".toList) ∧
      bodyLine [] "![](../../_resources/abc123.png)".toList
        = (["abc123.png".toList], "![](/images/abc123.png)".toList) ∧
      bodyLine [] "![](../../_resources/x1.png)".toList
        = (["x1.png".toList], "![](/images/x1.png)".toList) := by
  decide

/-- C4: the body line `see ../../_resources/a-png` holds no lowercase letter or digit
followed by the literal `.png`, yet the unescaped dot of the pattern matches the `-`:
`a-png` is recorded and the path is replaced. -/
theorem bodyLine_without_literal_pattern :
    containsLiteralPattern "see ../../_resources/a-png".toList = false ∧
      bodyLine [] "see ../../_resources/a-png".toList
        = (["a-png".toList], "see /images/a-png".toList) := by
  decide

/-- C10: on a body line with two references both paths are rewritten to `/images/`, but
only the first filename is recorded: the output links to `/images/b2.png` and `b2.png` is
not in the resource set. -/
theorem bodyLine_two_references :
    bodyLine [] "![](../../_resources/a1.png) ![](../../_resources/b2.png)".toList
        = (["a1.png".toList], "![](/images/a1.png) ![](/images/b2.png)".toList) ∧
      "b2.png".toList ∉
        (bodyLine [] "![](../../_resources/a1.png) ![](../../_resources/b2.png)".toList).1 := by
  decide

/-! ## The file name -/

/-- C5: on the lowercased file name `(draft) plan.md`, whose first character is not a
letter, a digit or `.`, `slug` does not return: `out[len(out)-1]` is evaluated on the
empty `out` and panics. -/
theorem slug_leading_separator_panics (U : UnicodeTables) :
    slug U "(draft) plan.md".toList = none := by
  rfl

/-! ## The filters of the walk -/

/-- C9, as stated, fails: `about-me.md` and `bookshelf/x.md` are regular files that lie
under no skipped directory and whose names do not start with `_`, yet they are skipped. -/
theorem transcodes_name_starting_like_skip_dir :
    underSkipDir "about-me.md".toList = false ∧
      HasPrefix "about-me.md".toList ['_'] = false ∧
      transcodes "about-me.md".toList false "about-me.md".toList = false ∧
      underSkipDir "bookshelf/x.md".toList = false ∧
      HasPrefix "x.md".toList ['_'] = false ∧
      transcodes "bookshelf/x.md".toList false "x.md".toList = false := by
  decide

/-- C9, amended: a walked regular file is transcoded if and only if its relative path
does not begin, as a string, with `books` or `about` and its name does not begin with
`_`; so every file under a skipped directory is skipped. -/
theorem transcodes_iff (filepath name : Str) :
    (transcodes filepath false name = true ↔
        (∀ d ∈ SkipDirs, ¬ d <+: filepath) ∧ ¬ ['_'] <+: name) ∧
      (underSkipDir filepath = true → transcodes filepath false name = false) := by
  constructor
  · simp [transcodes, HasPrefix, List.isPrefixOf_iff_prefix]
  · intro h
    simp only [underSkipDir, HasPrefix, List.any_eq_true, List.isPrefixOf_iff_prefix] at h
    obtain ⟨d, hd, hp⟩ := h
    have hdp : d <+: filepath := (List.prefix_append d ['/']).trans hp
    have : SkipDirs.any (fun d => HasPrefix filepath d) = true := by
      simp only [HasPrefix, List.any_eq_true, List.isPrefixOf_iff_prefix]
      exact ⟨d, hd, hdp⟩
    simp [transcodes, this]

theorem transcodes_iff_witness :
    (transcodes "notes/my note.md".toList false "my note.md".toList = true ↔
        (∀ d ∈ SkipDirs, ¬ d <+: "notes/my note.md".toList) ∧
          ¬ ['_'] <+: "my note.md".toList) ∧
      (underSkipDir "notes/my note.md".toList = true →
        transcodes "notes/my note.md".toList false "my note.md".toList = false) :=
  transcodes_iff "notes/my note.md".toList "my note.md".toList

end JoplinZola
